import Mathlib

/-!
Verification of the pycelldyn QC rule engine against its specification.

Shallow embedding of `pycelldyn/quality_control.py`, the QC-relevant parts of
`pycelldyn/preprocessing.py` and `pycelldyn/miscellaneous.py`.

Modelling conventions:
  - A pandas DataFrame is an ordered association of column names to lists of
    cells; a cell is missing (`NaN`), a rational number (standing for a
    Python float; every constant appearing in the code and in the claims is
    exactly representable and only order comparisons and exact equalities
    are performed), or a text value.
  - `df.loc[mask, col] = np.nan` becomes `setColWhere` with a Boolean mask.
  - Comparisons against `NaN` are `False` in pandas; `cellLt` / `cellGt`
    return `false` on a missing or text cell accordingly.
  - Fallible Python code returns `Except QcError`; the `QcError`
    constructors record which CPython exception the interpreter raises.
-/

/-- A cell of a DataFrame: missing (numpy `NaN`), numeric, or text. -/
inductive Cell
  | na
  | num (q : ℚ)
  | str (s : String)
deriving DecidableEq

/-- A column of a DataFrame: its cells in row order. -/
abbrev Col := List Cell

/-- A pandas DataFrame: ordered list of (column name, cells). -/
structure DataFrame where
  cols : List (String × Col)
deriving DecidableEq

/-- `df.columns`. -/
def DataFrame.columnNames (df : DataFrame) : List String :=
  df.cols.map Prod.fst

/-- `col in df.columns`. -/
def DataFrame.hasCol (df : DataFrame) (n : String) : Bool :=
  decide (n ∈ df.columnNames)

/-- `df[n]`: the first column named `n` (column names are unique per the
data-model invariant). -/
def DataFrame.getCol (df : DataFrame) (n : String) : Option Col :=
  (df.cols.find? (fun p => decide (p.1 = n))).map Prod.snd

/-- The cell of column `n` at row `i` (`None` when absent). -/
def DataFrame.getCell (df : DataFrame) (n : String) (i : ℕ) : Option Cell :=
  (df.getCol n).bind (fun c => c.get? i)

/-- Pandas `series < threshold`: `False` on `NaN` (and on non-numeric cells,
which do not occur in the numeric columns the QC rules compare). -/
def cellLt (c : Cell) (t : ℚ) : Bool :=
  match c with
  | Cell.num q => decide (q < t)
  | _ => false

/-- Pandas `series > threshold`: `False` on `NaN`. -/
def cellGt (c : Cell) (t : ℚ) : Bool :=
  match c with
  | Cell.num q => decide (t < q)
  | _ => false

/-- `df.loc[mask, col] = np.nan` restricted to one column: replace the cells
at the `true` positions of the mask by `NaN`. Positions beyond the mask are
kept (masks are built from a column of the same frame, so lengths agree). -/
def applyMask : List Bool → Col → Col
  | _, [] => []
  | [], c :: cs => c :: applyMask [] cs
  | b :: bs, c :: cs => (if b then Cell.na else c) :: applyMask bs cs

/-- Null the masked rows of every column named `n` (names are unique, so this
is the single column `df[n]`). -/
def DataFrame.setColWhere (df : DataFrame) (n : String) (mask : List Bool) : DataFrame :=
  ⟨df.cols.map (fun p => if p.1 = n then (p.1, applyMask mask p.2) else p)⟩

/-- Replace the whole column `n` (pandas `df[n] = series`). -/
def DataFrame.setCol (df : DataFrame) (n : String) (v : Col) : DataFrame :=
  ⟨df.cols.map (fun p => if p.1 = n then (p.1, v) else p)⟩

/-- The Boolean mask `p` applied to column `n` of `df` (empty when the column
is absent; every use is guarded by a presence check). -/
def maskBy (df : DataFrame) (n : String) (p : Cell → Bool) : List Bool :=
  ((df.getCol n).getD []).map p

/-- CPython exceptions raised by the embedded code. -/
inductive QcError
  /-- `raise(obj)` where `obj` is a plain string: CPython raises
  `TypeError: exceptions must derive from BaseException`; the constructor
  records the string the code attempted to raise. -/
  | raiseNonException (msg : String)
  | typeError (msg : String)
  | valueError (msg : String)
  | keyError (key : String)
  | indexError (msg : String)
  /-- `raise Exception(msg)`. -/
  | exception (msg : String)
deriving DecidableEq

deriving instance DecidableEq for Except

/-!
The numeric constants of the source (`1e-14`, `1e-4`, `1e-30`, and the test
value `9.9e-5`) are defined as explicit reduced fractions rather than
scientific literals: `Rat.ofScientific` normalizes through `Nat.gcd`, whose
well-founded recursion the kernel cannot unfold, which would block `decide`
on concrete inputs. The rules only ever compare rationals, never compute
with them, so the explicit fractions behave identically; the bridge
theorems `rat1em14_eq`, `rat1em4_eq`, `rat1em30_eq` and `rat99em6_eq` below
prove each equal to its scientific literal.
-/

/-- The source constant `1e-14` (WBC-scatter threshold default). -/
def rat1em14 : ℚ := ⟨1, 100000000000000, by decide, Nat.coprime_one_left _⟩

/-- The source constant `1e-4` (general RBC threshold). -/
def rat1em4 : ℚ := ⟨1, 10000, by decide, Nat.coprime_one_left _⟩

/-- The source constant `1e-30` (hypo/hyperchromic RBC threshold). -/
def rat1em30 : ℚ := ⟨1, 1000000000000000000000000000000, by decide, Nat.coprime_one_left _⟩

/-- The spec test value `9.9e-5`. -/
def rat99em6 : ℚ := ⟨99, 1000000, by decide, by norm_num⟩

/-- `miscellaneous.get_cols_wbc_scatter`. -/
def get_cols_wbc_scatter : List String :=
  ["neutrophil_size_mean",
   "neutrophil_intracellular_complexity",
   "neutrophil_lobularity_polarized",
   "neutrophil_lobularity_depolarized",
   "neutrophil_dna_staining",
   "lymphocyte_size_mean",
   "lymphocyte_intracellular_complexity"]

/-- One iteration of the loop of `qc_wbc_scatter`: for parameter `col`, when
both `col` and `col_cv` are present, null both at the rows where the CV in
the ORIGINAL frame `df` is strictly below the threshold
(`df_qc.loc[df[col_cv] < threshold, [col_cv, col]] = np.nan`). -/
def wbcStep (df : DataFrame) (t : ℚ) (df_qc : DataFrame) (col : String) : DataFrame :=
  let col_cv := col ++ "_cv"
  if df_qc.hasCol col && df_qc.hasCol col_cv then
    let mask := maskBy df col_cv (fun c => cellLt c t)
    (df_qc.setColWhere col_cv mask).setColWhere col mask
  else df_qc

/-- `quality_control.qc_wbc_scatter` (threshold is the explicit parameter
whose source default is `1e-14`). -/
def qc_wbc_scatter (df : DataFrame) (t : ℚ) : DataFrame :=
  get_cols_wbc_scatter.foldl (wbcStep df t) df

/-- The column list of `qc_rbc`. -/
def cols_rbc : List String :=
  ["reticulocytes",
   "reticulocytes_perc",
   "irf",
   "rbc_intracellular_complexity",
   "rbc_intracellular_complexity_cv",
   "rbc_population_position",
   "rbc_population_position_cv",
   "reticulocyte_population_position",
   "reticulocyte_population_position_cv",
   "mchcr",
   "mchr_nl",
   "mcvr",
   "hdw",
   "rbc_hypochromic_perc",
   "rbc_hyperchromic_perc"]

/-- The per-column threshold of `qc_rbc`:
`1e-30` for the hypo/hyperchromic percentages, `1e-4` otherwise. -/
def rbc_threshold (col : String) : ℚ :=
  if col = "rbc_hypochromic_perc" ∨ col = "rbc_hyperchromic_perc" then
    rat1em30
  else
    rat1em4

/-- One iteration of the loop of `qc_rbc`: when `col` is present, null it at
the rows where the ORIGINAL frame is strictly below the threshold
(`df_qc.loc[df[col] < threshold, col] = np.nan`). -/
def rbcStep (df : DataFrame) (df_qc : DataFrame) (col : String) : DataFrame :=
  if df_qc.hasCol col then
    df_qc.setColWhere col (maskBy df col (fun c => cellLt c (rbc_threshold col)))
  else df_qc

/-- `quality_control.qc_rbc`. -/
def qc_rbc (df : DataFrame) : DataFrame :=
  cols_rbc.foldl (rbcStep df) df

/-- The `cols_standard_values` dict of `qc_standard_values`, as the ordered
(key, value) pairs of its Python literal. -/
def cols_standard_values : List (String × ℚ) :=
  [("rbc_intracellular_complexity", 182),
   ("rbc_population_position", 85),
   ("neutrophil_size_mean", 140),
   ("neutrophil_intracellular_complexity", 150),
   ("neutrophil_lobularity_polarized", 125),
   ("neutrophil_lobularity_depolarized", 28),
   ("neutrophil_dna_staining", 69),
   ("lymphocyte_size_mean", 100),
   ("lymphocyte_intracellular_complexity", 75),
   ("hb_nl", 6.206e-21),
   ("mch_usa", 0.6206),
   ("mchc_usa", 0.6206),
   ("rbc_intracellular_complexity_cv", 1.59341),
   ("rbc_population_position_cv", 7.2)]

/-- CPython tuple unpacking `a, b = s` of a string `s`: a string iterates its
characters, so it unpacks only when it has exactly two characters; otherwise
a `ValueError` is raised. -/
def tupleUnpack2 (s : String) : Except QcError (Char × Char) :=
  match s.toList with
  | [a, b] => Except.ok (a, b)
  | [] => Except.error (QcError.valueError "not enough values to unpack (expected 2, got 0)")
  | [_] => Except.error (QcError.valueError "not enough values to unpack (expected 2, got 1)")
  | _ => Except.error (QcError.valueError "too many values to unpack (expected 2)")

/-- `quality_control.qc_standard_values`.
The source iterates `for col, value in cols_standard_values:` over the dict
itself (not `.items()`), so each iteration tuple-unpacks a KEY (a string)
into two targets. Every key of the table has more than two characters, so
the first iteration raises `ValueError` and the loop body (presence check
and row filtering) is unreachable; the body is therefore not modelled. -/
def qc_standard_values (df : DataFrame) : Except QcError DataFrame :=
  (cols_standard_values.map Prod.fst).foldlM
    (fun df_qc key =>
      match tupleUnpack2 key with
      | Except.error e => Except.error e
      | Except.ok _ => Except.ok df_qc)
    df

/-- `'-'` bound placeholder handling of `qc_plausible_range`:
`.replace('-', np.nan).astype(float).fillna(np.nan)` on a Min/Max cell.
A numeric cell parses to itself, `NaN` stays absent, the dash placeholder
becomes absent; any other text cell makes `astype(float)` raise
`ValueError` (dictionary bounds in scope are numbers or the dash; Python
float-parsing of further numeric text is outside the claims and not
modelled). -/
def parseBound (c : Cell) : Except QcError (Option ℚ) :=
  match c with
  | Cell.num q => Except.ok (some q)
  | Cell.na => Except.ok none
  | Cell.str s =>
      if s = "-" then Except.ok none
      else Except.error (QcError.valueError ("could not convert string to float: \x27" ++ s ++ "\x27"))

/-- The parsed data dictionary of `qc_plausible_range`: the rows of the
`Computer name` index paired with the parsed `Min` and `Max` bounds (the
whole Min column is cast first, then the whole Max column, so the first bad
cell of Min errors before any of Max). -/
def dictRanges (dict : DataFrame) : Except QcError (List (Cell × Option ℚ × Option ℚ)) :=
  match ((dict.getCol "Min").getD []).mapM parseBound,
        ((dict.getCol "Max").getD []).mapM parseBound with
  | Except.ok mins, Except.ok maxs =>
      Except.ok (((dict.getCol "Computer name").getD []).zip (mins.zip maxs))
  | Except.error e, _ => Except.error e
  | _, Except.error e => Except.error e

/-- `df_data_dictionary.loc[col, ['Min', 'Max']]` after `set_index`:
the bounds of the first dictionary row whose `Computer name` is `col`. -/
def rangeFor (entries : List (Cell × Option ℚ × Option ℚ)) (col : String) :
    Option (Option ℚ × Option ℚ) :=
  (entries.find? (fun e => decide (e.1 = Cell.str col))).map Prod.snd

/-- One iteration of the column loop of `qc_plausible_range`: when `col` has
a dictionary entry, null the cells strictly below Min (when Min is a bound),
then — on the updated frame — the cells strictly above Max (when Max is a
bound). The masks come from the accumulating `df_qc`, as in the source. -/
def plausStep (entries : List (Cell × Option ℚ × Option ℚ))
    (df_qc : DataFrame) (col : String) : DataFrame :=
  match rangeFor entries col with
  | none => df_qc
  | some (mn, mx) =>
    let d1 :=
      match mn with
      | some m => df_qc.setColWhere col (maskBy df_qc col (fun c => cellLt c m))
      | none => df_qc
    match mx with
    | some m => d1.setColWhere col (maskBy d1 col (fun c => cellGt c m))
    | none => d1

/-- `quality_control.qc_plausible_range`. -/
def qc_plausible_range (df : DataFrame) (dict : DataFrame) : Except QcError DataFrame :=
  if ¬ dict.hasCol "Computer name" then
    Except.error (QcError.exception "Column \x27Computer name\x27 not present in df_data_dictionary")
  else if ¬ dict.hasCol "Min" then
    Except.error (QcError.exception "Column \x27Min\x27 not present in df_data_dictionary")
  else if ¬ dict.hasCol "Max" then
    Except.error (QcError.exception "Column \x27Max\x27 not present in df_data_dictionary")
  else
    match dictRanges dict with
    | Except.error e => Except.error e
    | Except.ok entries =>
        Except.ok (df.columnNames.foldl (plausStep entries) df)

/-- `qc_types_possible` of `perform_qc` (note: it holds `rbc_scatter`, not
`rbc` or `erythro`, and omits `leuko_scatter`, `suspicious_flags` and
`failure`, all of which the docstring documents and the match handles). -/
def qc_types_possible : List String :=
  ["wbc_scatter", "rbc_scatter", "plausible_range", "flags", "fail", "standard_values"]

/-- The default `qc_types` argument of `perform_qc`. -/
def default_qc_types : List String :=
  ["wbc_scatter", "rbc_scatter", "plausible_range", "flags"]

/-- `quality_control.perform_qc`.
  - An empty rule list executes `raise("qc_types is empty.")`, a `raise` of a
    plain string.
  - The `plausible_range` branch calls `qc_plausible_range(df_qc)` without
    the required positional `df_data_dictionary`, which CPython rejects with
    a `TypeError` at call time.
  - A name not in `qc_types_possible` is skipped with a printed diagnostic;
    a member of `qc_types_possible` matching no `case` (namely
    `rbc_scatter`) falls through the `match` silently. The literal pattern
    `case '_':` of the source matches only the string `"_"`, which is not in
    `qc_types_possible`, hence is dead and indistinguishable from the silent
    fall-through. The inert `machine` parameter is omitted. -/
def perform_qc (df : DataFrame) (qc_types : List String) : Except QcError DataFrame :=
  if qc_types = [] then
    Except.error (QcError.raiseNonException "qc_types is empty.")
  else
    let rules := if decide ("all" ∈ qc_types) then qc_types_possible else qc_types
    rules.foldlM
      (fun df_qc qc =>
        if decide (qc ∈ qc_types_possible) then
          match qc with
          | "wbc_scatter" | "leuko_scatter" => Except.ok (qc_wbc_scatter df_qc rat1em14)
          | "rbc" | "erythro" => Except.ok (qc_rbc df_qc)
          | "plausible_range" =>
              Except.error (QcError.typeError
                "qc_plausible_range() missing 1 required positional argument: \x27df_data_dictionary\x27")
          | "flags" | "suspicious_flags" => Except.ok df_qc
          | "fail" | "failure" => Except.ok df_qc
          | "standard_values" => qc_standard_values df_qc
          | _ => Except.ok df_qc
        else Except.ok df_qc)
      df

/-- `preprocessing.clean_column_numerical`: null the blank, non-breaking
space and literal `"nan"` text cells (masks taken from the original frame),
then `astype(float)`. A remaining text cell makes the cast raise
`ValueError` (numeric columns in scope hold numbers, `NaN` or the three
sentinels; Python float-parsing of further numeric text is outside the
claims and not modelled). -/
def clean_column_numerical (df : DataFrame) (col : String) : Except QcError Col :=
  let orig := (df.getCol col).getD []
  let c1 := applyMask (orig.map (fun c => decide (c = Cell.str " "))) orig
  let c2 := applyMask (orig.map (fun c => decide (c = Cell.str "\u00A0"))) c1
  let c3 := applyMask (orig.map (fun c => decide (c = Cell.str "nan"))) c2
  c3.mapM
    (fun c =>
      match c with
      | Cell.str s =>
          Except.error (QcError.valueError ("could not convert string to float: \x27" ++ s ++ "\x27"))
      | c => Except.ok c)

/-- The `_clean_string` helper of `clean_column_categorical`: lower-case,
strip, and normalize the typographic apostrophe; non-strings pass through. -/
def cleanStringCell (c : Cell) : Cell :=
  match c with
  | Cell.str s => Cell.str (((s.toLower).trim).replace "\u2019" "\x27")
  | c => c

/-- `preprocessing.clean_column_categorical`: apply `_clean_string`
elementwise, then null the cells that were the non-breaking-space artifact
in the original frame. -/
def clean_column_categorical (df : DataFrame) (col : String) : Col :=
  let orig := (df.getCol col).getD []
  applyMask (orig.map (fun c => decide (c = Cell.str "\u00A0"))) (orig.map cleanStringCell)

/-- `types_numerical` of `clean_dataframe`. -/
def types_numerical : List String := ["int", "float", "int (scientific notation)"]

/-- `types_categorical` of `clean_dataframe`. -/
def types_categorical : List String := ["str", "string"]

/-- The column-dispatch loop of `preprocessing.clean_dataframe` (the Excel
reading that produces the dictionary is I/O and out of scope; `dict` is the
`Computer name`-indexed `Type mapping` column it yields, each entry already
through `str(...)`, so a `NaN` type cell arrives as the text `"nan"`, which
falls in the pass-through branch). `cols` is `None` in scope, so every
dataset column is visited. `col[0] == '_'` is modelled on the first
character of the name: on an empty name `col[0]` raises `IndexError`, an
underscore first character skips the column, and otherwise
`df_dictionary.loc[col, 'Type mapping']` raises `KeyError` when `col` is
not in the dictionary index. -/
def cleanStep (df : DataFrame) (dict : List (String × String))
    (df_clean : DataFrame) (col : String) : Except QcError DataFrame :=
  match col.toList with
  | [] => Except.error (QcError.indexError "string index out of range")
  | ch :: _ =>
  if ch = '_' then
    Except.ok df_clean
  else
    match dict.find? (fun e => decide (e.1 = col)) with
    | none => Except.error (QcError.keyError col)
    | some e =>
      let col_type := e.2.toLower
      if decide (col_type ∈ types_numerical) then
        match clean_column_numerical df col with
        | Except.error err => Except.error err
        | Except.ok newcol => Except.ok (df_clean.setCol col newcol)
      else if decide (col_type ∈ types_categorical) then
        Except.ok (df_clean.setCol col (clean_column_categorical df col))
      else
        Except.ok df_clean

def clean_dataframe (df : DataFrame) (dict : List (String × String)) : Except QcError DataFrame :=
  df.columnNames.foldlM (cleanStep df dict) df

/-- The per-cell effect of the plausible-range rule with parsed bounds
`mn`/`mx`: null when strictly below the Min bound, then null when strictly
above the Max bound (the Max test runs on the already min-filtered frame);
an absent bound skips that side. -/
def plausCell (mn mx : Option ℚ) (v : Cell) : Cell :=
  let v1 :=
    match mn with
    | some m => if cellLt v m then Cell.na else v
    | none => v
  match mx with
  | some m => if cellGt v1 m then Cell.na else v1
  | none => v1

/-- Concrete data dictionary of the spec's plausible-range example:
`glucose` with Min `0` and Max `100`, and `ph` with the dash placeholder as
Min and an empty Max. -/
def glucoseDict : DataFrame :=
  ⟨[("Computer name", [Cell.str "glucose", Cell.str "ph"]),
    ("Min", [Cell.num 0, Cell.str "-"]),
    ("Max", [Cell.num 100, Cell.na])]⟩

/-- The parsed entries of `glucoseDict`. -/
def glucoseEntries : List (Cell × Option ℚ × Option ℚ) :=
  [(Cell.str "glucose", some 0, some 100), (Cell.str "ph", none, none)]

/-- Concrete dataset of the spec's plausible-range example. -/
def glucoseDf : DataFrame :=
  ⟨[("glucose", [Cell.num (-1), Cell.num 150, Cell.num 50]),
    ("ph", [Cell.num (-5)])]⟩

/-- The output of the plausible-range rule on `glucoseDf` with `glucoseDict`. -/
def glucoseOut : DataFrame :=
  ⟨[("glucose", [Cell.na, Cell.na, Cell.num 50]),
    ("ph", [Cell.num (-5)])]⟩

/-- Concrete dataset for C10: `glucose` is dictionary-listed, `mystery2`
has no dictionary entry. -/
def c10Df : DataFrame :=
  ⟨[("glucose", [Cell.num 150]), ("mystery2", [Cell.num 7])]⟩

/-- The plausible-range output on `c10Df` with `glucoseDict`. -/
def c10Out : DataFrame :=
  ⟨[("glucose", [Cell.na]), ("mystery2", [Cell.num 7])]⟩

/-- Concrete dataset for the C10 counterexample and witness: a single
column absent from an empty data dictionary. -/
def mysteryDf : DataFrame := ⟨[("mystery", [Cell.num 1])]⟩

/-- Concrete dataset showing the RBC rule is not a no-op (C1): one
`reticulocytes` row holding `0.0`. -/
def rbcSkipDf : DataFrame := ⟨[("reticulocytes", [Cell.num 0])]⟩

/-- Concrete dataset showing the WBC-scatter rule is not a no-op (C1). -/
def leukoSkipDf : DataFrame :=
  ⟨[("neutrophil_size_mean", [Cell.num 140]),
    ("neutrophil_size_mean_cv", [Cell.num 0])]⟩

/-- The concrete dataset of the C4 witness: one row whose
`neutrophil_size_mean_cv` is `0.0`. -/
def wbcWitnessDf : DataFrame :=
  ⟨[("neutrophil_size_mean", [Cell.num 140]),
    ("neutrophil_size_mean_cv", [Cell.num 0])]⟩

/-- The concrete dataset of the C5 witness: `reticulocytes` rows `1e-4`
and `9.9e-5`. -/
def rbcWitnessDf : DataFrame :=
  ⟨[("reticulocytes", [Cell.num rat1em4, Cell.num rat99em6])]⟩

/-! ### Generic lemmas about the DataFrame operations -/

theorem applyMask_nil (c : Col) : applyMask [] c = c := by
  induction c with
  | nil => rfl
  | cons x xs ih => simp [applyMask, ih]

theorem applyMask_get? (m : List Bool) (c : Col) (i : ℕ) :
    (applyMask m c).get? i =
      (c.get? i).map (fun v => if m.getD i false then Cell.na else v) := by
  induction c generalizing m i with
  | nil => simp [applyMask]
  | cons x xs ih =>
    cases m with
    | nil =>
      cases i with
      | zero => simp [applyMask]
      | succ j => simpa [applyMask] using ih [] j
    | cons b bs =>
      cases i with
      | zero => simp [applyMask]
      | succ j => simpa [applyMask] using ih bs j

theorem applyMask_eq_self (m : List Bool) (c : Col) (h : ∀ b ∈ m, b = false) :
    applyMask m c = c := by
  induction c generalizing m with
  | nil => simp [applyMask]
  | cons x xs ih =>
    cases m with
    | nil => simp [applyMask, ih]
    | cons b bs =>
      have hb : b = false := h b (by simp)
      have hbs : ∀ y ∈ bs, y = false := fun y hy => h y (by simp [hy])
      simp [applyMask, hb, ih bs hbs]

/-- A cell after a QC pass refines the one before: unchanged or nulled. -/
def RefCell (a b : Cell) : Prop := a = b ∨ a = Cell.na

theorem refCell_trans {a b c : Cell} (h1 : RefCell a b) (h2 : RefCell b c) : RefCell a c := by
  rcases h1 with rfl | rfl
  · exact h2
  · exact Or.inr rfl

/-- Columnwise refinement: same length, each cell unchanged or nulled. -/
def ColRefines (a b : Col) : Prop := List.Forall₂ RefCell a b

theorem colRefines_refl (c : Col) : ColRefines c c :=
  List.forall₂_same.2 (fun _ _ => Or.inl rfl)

theorem colRefines_trans : ∀ {a b c : Col}, ColRefines a b → ColRefines b c → ColRefines a c := by
  intro a b c h1 h2
  induction h1 generalizing c with
  | nil => exact h2
  | cons hxy hxs ih =>
    cases h2 with
    | cons hyz hys => exact List.Forall₂.cons (refCell_trans hxy hyz) (ih hys)

theorem applyMask_refines (m : List Bool) (c : Col) : ColRefines (applyMask m c) c := by
  induction c generalizing m with
  | nil => rw [show applyMask m [] = [] from by cases m <;> rfl]; exact List.Forall₂.nil
  | cons x xs ih =>
    cases m with
    | nil => rw [applyMask_nil]; exact colRefines_refl _
    | cons b bs =>
      refine List.Forall₂.cons ?_ (ih bs)
      cases b
      · exact Or.inl rfl
      · exact Or.inr rfl

theorem map_eq_map_of_eq {α β : Type} (f g : α → β) (h : ∀ a, f a = g a) :
    ∀ l : List α, l.map f = l.map g := by
  intro l
  induction l with
  | nil => rfl
  | cons a as ih => simp [h, ih]

theorem columnNames_setColWhere (d : DataFrame) (n : String) (m : List Bool) :
    (d.setColWhere n m).columnNames = d.columnNames := by
  unfold DataFrame.setColWhere DataFrame.columnNames
  simp only [List.map_map]
  exact map_eq_map_of_eq _ _
    (fun p => by by_cases h : p.1 = n <;> simp [Function.comp, h]) _

theorem hasCol_setColWhere (d : DataFrame) (n x : String) (m : List Bool) :
    (d.setColWhere n m).hasCol x = d.hasCol x := by
  unfold DataFrame.hasCol
  rw [columnNames_setColWhere]

theorem getCol_setColWhere_ne (d : DataFrame) (n x : String) (m : List Bool) (h : x ≠ n) :
    (d.setColWhere n m).getCol x = d.getCol x := by
  obtain ⟨cols⟩ := d
  show Option.map Prod.snd (List.find? (fun p => decide (p.1 = x))
      (cols.map (fun p => if p.1 = n then (p.1, applyMask m p.2) else p))) =
    Option.map Prod.snd (List.find? (fun p => decide (p.1 = x)) cols)
  induction cols with
  | nil => rfl
  | cons p ps ih =>
    simp only [List.map_cons]
    by_cases hp : p.1 = n
    · have hx : ¬ p.1 = x := fun hh => h (by rw [← hh, hp])
      rw [if_pos hp]
      rw [List.find?_cons_of_neg _ (by simp [hx]), List.find?_cons_of_neg _ (by simp [hx])]
      exact ih
    · rw [if_neg hp]
      by_cases hx : p.1 = x
      · rw [List.find?_cons_of_pos _ (by simp [hx]), List.find?_cons_of_pos _ (by simp [hx])]
      · rw [List.find?_cons_of_neg _ (by simp [hx]), List.find?_cons_of_neg _ (by simp [hx])]
        exact ih

theorem getCol_setColWhere_self (d : DataFrame) (n : String) (m : List Bool) :
    (d.setColWhere n m).getCol n = (d.getCol n).map (applyMask m) := by
  obtain ⟨cols⟩ := d
  show Option.map Prod.snd (List.find? (fun p => decide (p.1 = n))
      (cols.map (fun p => if p.1 = n then (p.1, applyMask m p.2) else p))) =
    (Option.map Prod.snd (List.find? (fun p => decide (p.1 = n)) cols)).map (applyMask m)
  induction cols with
  | nil => rfl
  | cons p ps ih =>
    simp only [List.map_cons]
    by_cases hp : p.1 = n
    · rw [if_pos hp]
      rw [List.find?_cons_of_pos _ (by simp [hp]), List.find?_cons_of_pos _ (by simp [hp])]
      rfl
    · rw [if_neg hp]
      rw [List.find?_cons_of_neg _ (by simp [hp]), List.find?_cons_of_neg _ (by simp [hp])]
      exact ih

theorem hasCol_iff (d : DataFrame) (n : String) :
    d.hasCol n = true ↔ ∃ c, d.getCol n = some c := by
  obtain ⟨cols⟩ := d
  show decide (n ∈ cols.map Prod.fst) = true ↔
    ∃ c, Option.map Prod.snd (List.find? (fun p => decide (p.1 = n)) cols) = some c
  simp only [decide_eq_true_eq]
  induction cols with
  | nil => simp
  | cons p ps ih =>
    simp only [List.map_cons, List.mem_cons]
    by_cases hp : p.1 = n
    · rw [List.find?_cons_of_pos _ (by simp [hp])]
      simp [hp]
    · have hne : ¬ n = p.1 := fun hh => hp hh.symm
      rw [List.find?_cons_of_neg _ (by simp [hp])]
      simp only [hne, false_or]
      exact ih

theorem getCol_mem_columnNames (d : DataFrame) (n : String) {c : Col}
    (h : d.getCol n = some c) : n ∈ d.columnNames := by
  have := (hasCol_iff d n).2 ⟨c, h⟩
  simpa [DataFrame.hasCol] using this

/-- Framewise refinement: same column names, each column refined cellwise. -/
def RefFrame (A B : DataFrame) : Prop :=
  List.Forall₂ (fun p q : String × Col => p.1 = q.1 ∧ ColRefines p.2 q.2) A.cols B.cols

theorem refFrame_refl (A : DataFrame) : RefFrame A A :=
  List.forall₂_same.2 (fun p _ => ⟨rfl, colRefines_refl p.2⟩)

theorem forall₂_nameRef_trans :
    ∀ {la lb lc : List (String × Col)},
      List.Forall₂ (fun p q : String × Col => p.1 = q.1 ∧ ColRefines p.2 q.2) la lb →
      List.Forall₂ (fun p q : String × Col => p.1 = q.1 ∧ ColRefines p.2 q.2) lb lc →
      List.Forall₂ (fun p q : String × Col => p.1 = q.1 ∧ ColRefines p.2 q.2) la lc := by
  intro la lb lc h1 h2
  induction h1 generalizing lc with
  | nil => cases h2; exact List.Forall₂.nil
  | cons hpq hrest ih =>
    cases h2 with
    | cons hqr hqs =>
      exact List.Forall₂.cons ⟨hpq.1.trans hqr.1, colRefines_trans hpq.2 hqr.2⟩ (ih hqs)

theorem refFrame_trans {A B C : DataFrame} (h1 : RefFrame A B) (h2 : RefFrame B C) :
    RefFrame A C := forall₂_nameRef_trans h1 h2

theorem refFrame_setColWhere (d : DataFrame) (n : String) (m : List Bool) :
    RefFrame (d.setColWhere n m) d := by
  obtain ⟨cols⟩ := d
  show List.Forall₂ _ (cols.map (fun p => if p.1 = n then (p.1, applyMask m p.2) else p)) cols
  induction cols with
  | nil => exact List.Forall₂.nil
  | cons p ps ih =>
    simp only [List.map_cons]
    refine List.Forall₂.cons ?_ ih
    by_cases hp : p.1 = n
    · rw [if_pos hp]
      exact ⟨rfl, applyMask_refines m p.2⟩
    · rw [if_neg hp]
      exact ⟨rfl, colRefines_refl p.2⟩

theorem forall₂_nameRef_names :
    ∀ {la lb : List (String × Col)},
      List.Forall₂ (fun p q : String × Col => p.1 = q.1 ∧ ColRefines p.2 q.2) la lb →
      la.map Prod.fst = lb.map Prod.fst := by
  intro la lb h
  induction h with
  | nil => rfl
  | cons hpq hrest ih => simp only [List.map_cons, hpq.1, ih]

theorem RefFrame.columnNames_eq {A B : DataFrame} (h : RefFrame A B) :
    A.columnNames = B.columnNames :=
  forall₂_nameRef_names h

theorem RefFrame.hasCol_eq {A B : DataFrame} (h : RefFrame A B) (n : String) :
    A.hasCol n = B.hasCol n := by
  unfold DataFrame.hasCol
  rw [h.columnNames_eq]

theorem find?_ref_some :
    ∀ {la lb : List (String × Col)},
      List.Forall₂ (fun p q : String × Col => p.1 = q.1 ∧ ColRefines p.2 q.2) la lb →
      ∀ {n : String} {ca : Col},
        Option.map Prod.snd (la.find? (fun p => decide (p.1 = n))) = some ca →
        ∃ cb, Option.map Prod.snd (lb.find? (fun p => decide (p.1 = n))) = some cb ∧
          ColRefines ca cb := by
  intro la lb h
  induction h with
  | nil => intro n ca hca; simp at hca
  | @cons p q ps qs hpq hrest ih =>
    intro n ca hca
    by_cases hp : p.1 = n
    · rw [List.find?_cons_of_pos _ (by simp [hp])] at hca
      simp only [Option.map_some'] at hca
      refine ⟨q.2, ?_, ?_⟩
      · rw [List.find?_cons_of_pos _ (by simp [← hpq.1, hp])]
        rfl
      · have hpa : p.2 = ca := by simpa using hca
        exact hpa ▸ hpq.2
    · rw [List.find?_cons_of_neg _ (by simp [hp])] at hca
      have hq : ¬ q.1 = n := fun hh => hp (hpq.1.trans hh)
      rw [List.find?_cons_of_neg _ (by simp [hq])]
      exact ih hca

theorem RefFrame.getCol_some {A B : DataFrame} (h : RefFrame A B) {n : String} {ca : Col}
    (hca : A.getCol n = some ca) : ∃ cb, B.getCol n = some cb ∧ ColRefines ca cb :=
  find?_ref_some h hca

/-! ### Lemmas about the WBC-scatter pass -/

theorem wbcStep_columnNames (df : DataFrame) (t : ℚ) (acc : DataFrame) (c : String) :
    (wbcStep df t acc c).columnNames = acc.columnNames := by
  unfold wbcStep
  by_cases h : (acc.hasCol c && acc.hasCol (c ++ "_cv")) = true
  · simp only [h, if_pos]
    rw [columnNames_setColWhere, columnNames_setColWhere]
  · rw [if_neg h]

theorem wbcStep_refines (df : DataFrame) (t : ℚ) (acc : DataFrame) (c : String) :
    RefFrame (wbcStep df t acc c) acc := by
  unfold wbcStep
  by_cases h : (acc.hasCol c && acc.hasCol (c ++ "_cv")) = true
  · rw [if_pos h]
    exact refFrame_trans (refFrame_setColWhere _ _ _) (refFrame_setColWhere _ _ _)
  · rw [if_neg (by simpa using h)]
    exact refFrame_refl acc

theorem foldl_wbc_refines (df : DataFrame) (t : ℚ) :
    ∀ (L : List String) (acc : DataFrame), RefFrame (L.foldl (wbcStep df t) acc) acc := by
  intro L
  induction L with
  | nil => intro acc; exact refFrame_refl acc
  | cons c cs ih =>
    intro acc
    rw [List.foldl_cons]
    exact refFrame_trans (ih (wbcStep df t acc c)) (wbcStep_refines df t acc c)

theorem getCol_wbcStep_ne (df : DataFrame) (t : ℚ) (acc : DataFrame) (c n : String)
    (h1 : n ≠ c) (h2 : n ≠ c ++ "_cv") :
    (wbcStep df t acc c).getCol n = acc.getCol n := by
  unfold wbcStep
  by_cases h : (acc.hasCol c && acc.hasCol (c ++ "_cv")) = true
  · rw [if_pos h, getCol_setColWhere_ne _ _ _ _ h1, getCol_setColWhere_ne _ _ _ _ h2]
  · rw [if_neg (by simpa using h)]

theorem getCol_foldl_wbc_ne (df : DataFrame) (t : ℚ) :
    ∀ (L : List String) (acc : DataFrame) (n : String),
      (∀ c ∈ L, n ≠ c ∧ n ≠ c ++ "_cv") →
      (L.foldl (wbcStep df t) acc).getCol n = acc.getCol n := by
  intro L
  induction L with
  | nil => intro acc n _; rfl
  | cons c cs ih =>
    intro acc n h
    rw [List.foldl_cons, ih _ n (fun x hx => h x (by simp [hx])),
        getCol_wbcStep_ne df t acc c n (h c (by simp)).1 (h c (by simp)).2]

/-- A string is never its own `_cv` sibling. -/
theorem ne_append_cv (c : String) : c ≠ c ++ "_cv" := by
  intro h
  have hl := congrArg String.length h
  rw [String.length_append] at hl
  have h3 : ("_cv" : String).length = 3 := rfl
  rw [h3] at hl
  omega

theorem getCol_wbcStep_self (df : DataFrame) (t : ℚ) (acc : DataFrame) (c : String)
    (hg : (acc.hasCol c && acc.hasCol (c ++ "_cv")) = true) :
    (wbcStep df t acc c).getCol c =
      (acc.getCol c).map (applyMask (maskBy df (c ++ "_cv") (fun x => cellLt x t))) := by
  unfold wbcStep
  rw [if_pos hg, getCol_setColWhere_self,
      getCol_setColWhere_ne _ _ _ _ (ne_append_cv c)]

theorem getCol_wbcStep_self_cv (df : DataFrame) (t : ℚ) (acc : DataFrame) (c : String)
    (hg : (acc.hasCol c && acc.hasCol (c ++ "_cv")) = true) :
    (wbcStep df t acc c).getCol (c ++ "_cv") =
      (acc.getCol (c ++ "_cv")).map (applyMask (maskBy df (c ++ "_cv") (fun x => cellLt x t))) := by
  unfold wbcStep
  rw [if_pos hg, getCol_setColWhere_ne _ _ _ _ (ne_append_cv c).symm,
      getCol_setColWhere_self]

/-- A column is clean for threshold `t` when no cell is strictly below `t`. -/
def ColClean (t : ℚ) (c : Col) : Prop := ∀ x ∈ c, cellLt x t = false

theorem colClean_of_refines {t : ℚ} :
    ∀ {a b : Col}, ColRefines a b → ColClean t b → ColClean t a := by
  intro a b h
  induction h with
  | nil => intro _ x hx; simp at hx
  | @cons u v us vs huv hrest ih =>
    intro hb x hx
    rcases List.mem_cons.1 hx with hx0 | hx'
    · rcases huv with huv' | huv'
      · rw [hx0, huv']; exact hb v (by simp)
      · rw [hx0, huv']; rfl
    · exact ih (fun y hy => hb y (by simp [hy])) x hx'

/-- Nulling a column at the rows where the reference column is below the
threshold leaves it clean, provided it refines the reference column. -/
theorem colClean_applyMask {t : ℚ} :
    ∀ {cur orig : Col}, ColRefines cur orig →
      ColClean t (applyMask (orig.map (fun x => cellLt x t)) cur) := by
  intro cur orig h
  induction h with
  | nil => intro x hx; simp [applyMask] at hx
  | @cons u v us vs huv hrest ih =>
    intro x hx
    simp only [List.map_cons] at hx
    rw [show applyMask (cellLt v t :: vs.map (fun y => cellLt y t)) (u :: us) =
        (if cellLt v t then Cell.na else u) :: applyMask (vs.map (fun y => cellLt y t)) us
        from rfl] at hx
    rcases List.mem_cons.1 hx with hx0 | hx'
    · rw [hx0]
      by_cases hv : cellLt v t = true
      · rw [if_pos hv]; rfl
      · rw [if_neg hv]
        have hv' : cellLt v t = false := by simpa using hv
        rcases huv with huv' | huv'
        · rw [huv']; exact hv'
        · rw [huv']; rfl
    · exact ih x hx'

/-- After a full WBC pass starting from any refinement of `df`, every CV
column whose parameter pair is present in `df` is clean: no cell of it is
still strictly below the threshold. -/
theorem wbc_cv_clean (df : DataFrame) (t : ℚ) :
    ∀ (L : List String) (acc : DataFrame), RefFrame acc df →
      ∀ c ∈ L, df.hasCol c = true → df.hasCol (c ++ "_cv") = true →
      ∀ col', (L.foldl (wbcStep df t) acc).getCol (c ++ "_cv") = some col' →
      ColClean t col' := by
  intro L
  induction L with
  | nil => intro acc _ c hc; simp at hc
  | cons c0 L' ih =>
    intro acc hacc c hc hdfc hdfcv col' hcol'
    rw [List.foldl_cons] at hcol'
    have hacc' : RefFrame (wbcStep df t acc c0) df :=
      refFrame_trans (wbcStep_refines df t acc c0) hacc
    rcases List.mem_cons.1 hc with hcc0 | hcL'
    · rw [← hcc0] at hcol'
      have hg : (acc.hasCol c && acc.hasCol (c ++ "_cv")) = true := by
        rw [hacc.hasCol_eq c, hacc.hasCol_eq (c ++ "_cv"), hdfc, hdfcv]; rfl
      obtain ⟨accCv, haccCv⟩ := (hasCol_iff acc (c ++ "_cv")).1
        (by rw [hacc.hasCol_eq]; exact hdfcv)
      obtain ⟨dfCv, hdfCvCol, hrefcv⟩ := hacc.getCol_some haccCv
      have hstep : (wbcStep df t acc c).getCol (c ++ "_cv") =
          some (applyMask (maskBy df (c ++ "_cv") (fun x => cellLt x t)) accCv) := by
        rw [getCol_wbcStep_self_cv df t acc c hg, haccCv]; rfl
      have hmask : maskBy df (c ++ "_cv") (fun x => cellLt x t) =
          dfCv.map (fun x => cellLt x t) := by
        unfold maskBy; rw [hdfCvCol]; rfl
      have hcleanStep :
          ColClean t (applyMask (maskBy df (c ++ "_cv") (fun x => cellLt x t)) accCv) := by
        rw [hmask]
        exact colClean_applyMask hrefcv
      have hrest : RefFrame (L'.foldl (wbcStep df t) (wbcStep df t acc c))
          (wbcStep df t acc c) := foldl_wbc_refines df t L' _
      obtain ⟨cb, hcb, hrefFinal⟩ := hrest.getCol_some hcol'
      rw [hstep] at hcb
      have hcbeq : cb = applyMask (maskBy df (c ++ "_cv") (fun x => cellLt x t)) accCv := by
        simpa using hcb.symm
      exact colClean_of_refines (hcbeq ▸ hrefFinal) hcleanStep
    · exact ih (wbcStep df t acc c0) hacc' c hcL' hdfc hdfcv col' hcol'

theorem foldl_fix {α β : Type} (f : β → α → β) (a : β) :
    ∀ L : List α, (∀ c ∈ L, f a c = a) → List.foldl f a L = a := by
  intro L
  induction L with
  | nil => intro _; rfl
  | cons c cs ih =>
    intro h
    rw [List.foldl_cons, h c (by simp)]
    exact ih (fun x hx => h x (by simp [hx]))

theorem setColWhere_eq_self (d : DataFrame) (n : String) (m : List Bool)
    (h : ∀ b ∈ m, b = false) : d.setColWhere n m = d := by
  obtain ⟨cols⟩ := d
  unfold DataFrame.setColWhere
  congr 1
  induction cols with
  | nil => rfl
  | cons p ps ih =>
    simp only [List.map_cons, ih]
    congr 1
    by_cases hp : p.1 = n
    · rw [if_pos hp, applyMask_eq_self m p.2 h]
    · rw [if_neg hp]

/-- Claim C9: for every dataset (and any threshold), the WBC-scatter rule is
idempotent: applying `qc_wbc_scatter` to its own output returns that output
unchanged — cells already missing stay missing and cells that passed the
threshold check are unaffected by the second application. -/
theorem qc_wbc_scatter_idempotent (df : DataFrame) (t : ℚ) :
    qc_wbc_scatter (qc_wbc_scatter df t) t = qc_wbc_scatter df t := by
  set D1 := qc_wbc_scatter df t with hD1
  have href : RefFrame D1 df := foldl_wbc_refines df t get_cols_wbc_scatter df
  show get_cols_wbc_scatter.foldl (wbcStep D1 t) D1 = D1
  refine foldl_fix _ _ _ ?_
  intro c hc
  by_cases hg : (D1.hasCol c && D1.hasCol (c ++ "_cv")) = true
  · have hg2 : D1.hasCol c = true ∧ D1.hasCol (c ++ "_cv") = true := by
      simpa using hg
    have hgc : df.hasCol c = true := by
      rw [← href.hasCol_eq c]; exact hg2.1
    have hgcv : df.hasCol (c ++ "_cv") = true := by
      rw [← href.hasCol_eq (c ++ "_cv")]; exact hg2.2
    obtain ⟨col', hcol'⟩ := (hasCol_iff D1 (c ++ "_cv")).1 hg2.2
    have hclean : ColClean t col' :=
      wbc_cv_clean df t get_cols_wbc_scatter df (refFrame_refl df) c hc hgc hgcv col' hcol'
    have hmaskfalse : ∀ b ∈ maskBy D1 (c ++ "_cv") (fun x => cellLt x t), b = false := by
      intro b hb
      unfold maskBy at hb
      rw [hcol'] at hb
      simp only [Option.getD_some] at hb
      obtain ⟨x, hx, hxb⟩ := List.mem_map.1 hb
      rw [← hxb]; exact hclean x hx
    show wbcStep D1 t D1 c = D1
    unfold wbcStep
    rw [if_pos hg]
    rw [setColWhere_eq_self _ _ _ hmaskfalse, setColWhere_eq_self _ _ _ hmaskfalse]
  · show wbcStep D1 t D1 c = D1
    unfold wbcStep
    rw [if_neg hg]

/-- `rat1em14` is the source literal `1e-14`. -/
theorem rat1em14_eq : rat1em14 = (1e-14 : ℚ) := by
  unfold rat1em14
  rw [Rat.mk'_eq_divInt, Rat.divInt_eq_div]
  norm_num

/-- `rat1em4` is the source literal `1e-4`. -/
theorem rat1em4_eq : rat1em4 = (1e-4 : ℚ) := by
  unfold rat1em4
  rw [Rat.mk'_eq_divInt, Rat.divInt_eq_div]
  norm_num

/-- `rat1em30` is the source literal `1e-30`. -/
theorem rat1em30_eq : rat1em30 = (1e-30 : ℚ) := by
  unfold rat1em30
  rw [Rat.mk'_eq_divInt, Rat.divInt_eq_div]
  norm_num

/-- `rat99em6` is the spec literal `9.9e-5`. -/
theorem rat99em6_eq : rat99em6 = (9.9e-5 : ℚ) := by
  unfold rat99em6
  rw [Rat.mk'_eq_divInt, Rat.divInt_eq_div]
  norm_num

theorem wbc_nodup : get_cols_wbc_scatter.Nodup := by decide

theorem wbc_names_pairwise :
    ∀ a ∈ get_cols_wbc_scatter, ∀ b ∈ get_cols_wbc_scatter,
      a ≠ b ++ "_cv" ∧ (a ++ "_cv" = b ++ "_cv" → a = b) := by decide

theorem getCell_of_getCol {d : DataFrame} {n : String} {c : Col}
    (h : d.getCol n = some c) (i : ℕ) : d.getCell n i = c.get? i := by
  unfold DataFrame.getCell
  rw [h]; rfl

theorem applyMask_map_getD (f : Cell → Bool) (ref : Col) (i : ℕ) {w : Cell}
    (href : ref.get? i = some w) : (ref.map f).getD i false = f w := by
  rw [List.getD_eq_getD_get?, List.get?_eq_getElem?, List.getElem?_map,
      ← List.get?_eq_getElem?, href]
  rfl

theorem getCell_getCol_some {d : DataFrame} {n : String} {i : ℕ} {v : Cell}
    (h : d.getCell n i = some v) : ∃ c, d.getCol n = some c ∧ c.get? i = some v := by
  unfold DataFrame.getCell at h
  cases hg : d.getCol n with
  | none => rw [hg] at h; simp at h
  | some c => rw [hg] at h; exact ⟨c, rfl, h⟩

/-- Splitting a duplicate-free list at a member. -/
theorem nodup_split {α : Type} [DecidableEq α] {L : List α} {a : α}
    (hnd : L.Nodup) (ha : a ∈ L) :
    ∃ l1 l2, L = l1 ++ a :: l2 ∧ a ∉ l1 ∧ a ∉ l2 := by
  obtain ⟨l1, l2, rfl⟩ := List.append_of_mem ha
  rw [List.nodup_append] at hnd
  obtain ⟨-, hnd2, hdisj⟩ := hnd
  refine ⟨l1, l2, rfl, ?_, ?_⟩
  · intro hmem
    exact hdisj hmem (by simp)
  · exact (List.nodup_cons.1 hnd2).1

/-- Claim C4: for every dataset, the WBC-scatter rule with threshold `t`
considers the fixed list of 7 scatter parameters; for each parameter `P`
with both `P` and `P_cv` present, every row whose CV is strictly below `t`
gets both cells set to missing, and every other row (in particular one whose
CV equals `t` exactly) keeps both cells unchanged. -/
theorem qc_wbc_scatter_cells (df : DataFrame) (t : ℚ) (P : String) (i : ℕ) (v vcv : Cell)
    (hP : P ∈ get_cols_wbc_scatter)
    (hv : df.getCell P i = some v)
    (hvcv : df.getCell (P ++ "_cv") i = some vcv) :
    (qc_wbc_scatter df t).getCell P i = some (if cellLt vcv t then Cell.na else v) ∧
    (qc_wbc_scatter df t).getCell (P ++ "_cv") i =
      some (if cellLt vcv t then Cell.na else vcv) := by
  obtain ⟨colP, hcolP, hgetP⟩ := getCell_getCol_some hv
  obtain ⟨colCv, hcolCv, hgetCv⟩ := getCell_getCol_some hvcv
  have hhasP : df.hasCol P = true := (hasCol_iff df P).2 ⟨colP, hcolP⟩
  have hhasCv : df.hasCol (P ++ "_cv") = true := (hasCol_iff df _).2 ⟨colCv, hcolCv⟩
  obtain ⟨l1, l2, hL, hnl1, hnl2⟩ := nodup_split wbc_nodup hP
  have huntouch : ∀ c ∈ l1 ++ l2, (P ≠ c ∧ P ≠ c ++ "_cv") ∧
      (P ++ "_cv" ≠ c ∧ P ++ "_cv" ≠ c ++ "_cv") := by
    intro c hcmem
    have hcL : c ∈ get_cols_wbc_scatter := by
      rw [hL]
      rcases List.mem_append.1 hcmem with h1 | h2
      · exact List.mem_append_left _ h1
      · exact List.mem_append_right _ (by simp [h2])
    have hPc : P ≠ c := by
      rintro rfl
      rcases List.mem_append.1 hcmem with h1 | h2
      · exact hnl1 h1
      · exact hnl2 h2
    refine ⟨⟨hPc, (wbc_names_pairwise P hP c hcL).1⟩, ?_, ?_⟩
    · intro hh
      exact (wbc_names_pairwise c hcL P hP).1 hh.symm
    · intro hh
      exact hPc ((wbc_names_pairwise P hP c hcL).2 hh)
  have hu1 : ∀ c ∈ l1, P ≠ c ∧ P ≠ c ++ "_cv" :=
    fun c hc => (huntouch c (List.mem_append_left _ hc)).1
  have hu1cv : ∀ c ∈ l1, P ++ "_cv" ≠ c ∧ P ++ "_cv" ≠ c ++ "_cv" :=
    fun c hc => (huntouch c (List.mem_append_left _ hc)).2
  have hu2 : ∀ c ∈ l2, P ≠ c ∧ P ≠ c ++ "_cv" :=
    fun c hc => (huntouch c (List.mem_append_right _ hc)).1
  have hu2cv : ∀ c ∈ l2, P ++ "_cv" ≠ c ∧ P ++ "_cv" ≠ c ++ "_cv" :=
    fun c hc => (huntouch c (List.mem_append_right _ hc)).2
  have hQ : qc_wbc_scatter df t =
      l2.foldl (wbcStep df t) (wbcStep df t (l1.foldl (wbcStep df t) df) P) := by
    unfold qc_wbc_scatter
    rw [hL, List.foldl_append, List.foldl_cons]
  set acc1 := l1.foldl (wbcStep df t) df with hacc1
  have hacc1P : acc1.getCol P = some colP := by
    rw [hacc1, getCol_foldl_wbc_ne df t l1 df P hu1, hcolP]
  have hacc1Cv : acc1.getCol (P ++ "_cv") = some colCv := by
    rw [hacc1, getCol_foldl_wbc_ne df t l1 df _ hu1cv, hcolCv]
  have href1 : RefFrame acc1 df := foldl_wbc_refines df t l1 df
  have hg : (acc1.hasCol P && acc1.hasCol (P ++ "_cv")) = true := by
    rw [href1.hasCol_eq P, href1.hasCol_eq (P ++ "_cv"), hhasP, hhasCv]; rfl
  have hmask : maskBy df (P ++ "_cv") (fun x => cellLt x t) =
      colCv.map (fun x => cellLt x t) := by
    unfold maskBy; rw [hcolCv]; rfl
  have hstepP : (wbcStep df t acc1 P).getCol P =
      some (applyMask (colCv.map (fun x => cellLt x t)) colP) := by
    rw [getCol_wbcStep_self df t acc1 P hg, hacc1P, hmask]; rfl
  have hstepCv : (wbcStep df t acc1 P).getCol (P ++ "_cv") =
      some (applyMask (colCv.map (fun x => cellLt x t)) colCv) := by
    rw [getCol_wbcStep_self_cv df t acc1 P hg, hacc1Cv, hmask]; rfl
  have hfinP : (qc_wbc_scatter df t).getCol P =
      some (applyMask (colCv.map (fun x => cellLt x t)) colP) := by
    rw [hQ, getCol_foldl_wbc_ne df t l2 _ P hu2, hstepP]
  have hfinCv : (qc_wbc_scatter df t).getCol (P ++ "_cv") =
      some (applyMask (colCv.map (fun x => cellLt x t)) colCv) := by
    rw [hQ, getCol_foldl_wbc_ne df t l2 _ _ hu2cv, hstepCv]
  have hmgetD : ((colCv.map (fun x => cellLt x t)).getD i false) = cellLt vcv t :=
    applyMask_map_getD _ colCv i hgetCv
  constructor
  · rw [getCell_of_getCol hfinP i, applyMask_get?]
    simp only [hmgetD, hgetP, Option.map_some']
  · rw [getCell_of_getCol hfinCv i, applyMask_get?]
    simp only [hmgetD, hgetCv, Option.map_some']

/-- Witness for C4: with the default threshold `1e-14`, a row with
`neutrophil_size_mean_cv = 0.0` gets both cells set to missing. -/
theorem qc_wbc_scatter_cells_witness :
    (qc_wbc_scatter wbcWitnessDf rat1em14).getCell "neutrophil_size_mean" 0 =
      some Cell.na ∧
    (qc_wbc_scatter wbcWitnessDf rat1em14).getCell "neutrophil_size_mean_cv" 0 =
      some Cell.na := by
  obtain ⟨h1, h2⟩ := qc_wbc_scatter_cells wbcWitnessDf rat1em14 "neutrophil_size_mean" 0
    (Cell.num 140) (Cell.num 0) (by decide) (by decide) (by decide)
  constructor
  · rw [h1]; decide
  · have hs : "neutrophil_size_mean" ++ "_cv" = "neutrophil_size_mean_cv" := by decide
    rw [← hs, h2]; decide

/-! ### Lemmas about the RBC pass -/

theorem rbc_nodup : cols_rbc.Nodup := by decide

theorem hasCol_eq_of_columnNames {A B : DataFrame} (h : A.columnNames = B.columnNames)
    (n : String) : A.hasCol n = B.hasCol n := by
  unfold DataFrame.hasCol
  rw [h]

theorem rbcStep_columnNames (df acc : DataFrame) (c : String) :
    (rbcStep df acc c).columnNames = acc.columnNames := by
  unfold rbcStep
  by_cases h : acc.hasCol c = true
  · rw [if_pos h, columnNames_setColWhere]
  · rw [if_neg h]

theorem foldl_rbc_columnNames (df : DataFrame) :
    ∀ (L : List String) (acc : DataFrame),
      (L.foldl (rbcStep df) acc).columnNames = acc.columnNames := by
  intro L
  induction L with
  | nil => intro acc; rfl
  | cons c cs ih =>
    intro acc
    rw [List.foldl_cons, ih, rbcStep_columnNames]

theorem getCol_rbcStep_ne (df acc : DataFrame) (c n : String) (h : n ≠ c) :
    (rbcStep df acc c).getCol n = acc.getCol n := by
  unfold rbcStep
  by_cases hg : acc.hasCol c = true
  · rw [if_pos hg, getCol_setColWhere_ne _ _ _ _ h]
  · rw [if_neg hg]

theorem getCol_foldl_rbc_ne (df : DataFrame) :
    ∀ (L : List String) (acc : DataFrame) (n : String), (∀ c ∈ L, n ≠ c) →
      (L.foldl (rbcStep df) acc).getCol n = acc.getCol n := by
  intro L
  induction L with
  | nil => intro acc n _; rfl
  | cons c cs ih =>
    intro acc n h
    rw [List.foldl_cons, ih _ n (fun x hx => h x (by simp [hx])),
        getCol_rbcStep_ne df acc c n (h c (by simp))]

theorem getCol_rbcStep_self (df acc : DataFrame) (c : String) (hg : acc.hasCol c = true) :
    (rbcStep df acc c).getCol c =
      (acc.getCol c).map
        (applyMask (maskBy df c (fun x => cellLt x (rbc_threshold c)))) := by
  unfold rbcStep
  rw [if_pos hg, getCol_setColWhere_self]

/-- Claim C5: the RBC rule nulls, per present listed column independently,
exactly the cells strictly below that column's threshold; the threshold is
`1e-30` for the hypo/hyperchromic percentages and `1e-4` for the other 13
parameters, so a `reticulocytes` value of exactly `1e-4` survives while
`9.9e-5` becomes missing. -/
theorem qc_rbc_cells :
    (∀ (df : DataFrame) (col : String) (i : ℕ) (v : Cell), col ∈ cols_rbc →
      df.getCell col i = some v →
      (qc_rbc df).getCell col i =
        some (if cellLt v (rbc_threshold col) then Cell.na else v)) ∧
    rbc_threshold "rbc_hypochromic_perc" = (1e-30 : ℚ) ∧
    rbc_threshold "rbc_hyperchromic_perc" = (1e-30 : ℚ) ∧
    (∀ col ∈ cols_rbc, col ≠ "rbc_hypochromic_perc" → col ≠ "rbc_hyperchromic_perc" →
      rbc_threshold col = (1e-4 : ℚ)) := by
  refine ⟨?_, ?thr1, ?thr2, ?thr3⟩
  case thr1 =>
    rw [show rbc_threshold "rbc_hypochromic_perc" = rat1em30 from rfl]
    exact rat1em30_eq
  case thr2 =>
    rw [show rbc_threshold "rbc_hyperchromic_perc" = rat1em30 from rfl]
    exact rat1em30_eq
  case thr3 =>
    intro col _ h1 h2
    have hne : ¬ (col = "rbc_hypochromic_perc" ∨ col = "rbc_hyperchromic_perc") := by
      rintro (h | h)
      · exact h1 h
      · exact h2 h
    rw [show rbc_threshold col = if col = "rbc_hypochromic_perc" ∨ col = "rbc_hyperchromic_perc" then rat1em30 else rat1em4 from rfl,
        if_neg hne]
    exact rat1em4_eq
  intro df col i v hcol hv
  obtain ⟨colV, hcolV, hgetV⟩ := getCell_getCol_some hv
  have hhas : df.hasCol col = true := (hasCol_iff df col).2 ⟨colV, hcolV⟩
  obtain ⟨l1, l2, hL, hnl1, hnl2⟩ := nodup_split rbc_nodup hcol
  have hu1 : ∀ c ∈ l1, col ≠ c := by
    intro c hc
    rintro rfl
    exact hnl1 hc
  have hu2 : ∀ c ∈ l2, col ≠ c := by
    intro c hc
    rintro rfl
    exact hnl2 hc
  have hQ : qc_rbc df =
      l2.foldl (rbcStep df) (rbcStep df (l1.foldl (rbcStep df) df) col) := by
    unfold qc_rbc
    rw [hL, List.foldl_append, List.foldl_cons]
  set acc1 := l1.foldl (rbcStep df) df with hacc1
  have hacc1V : acc1.getCol col = some colV := by
    rw [hacc1, getCol_foldl_rbc_ne df l1 df col hu1, hcolV]
  have hg : acc1.hasCol col = true := by
    rw [hasCol_eq_of_columnNames (foldl_rbc_columnNames df l1 df) col]
    exact hhas
  have hmask : maskBy df col (fun x => cellLt x (rbc_threshold col)) =
      colV.map (fun x => cellLt x (rbc_threshold col)) := by
    unfold maskBy; rw [hcolV]; rfl
  have hstep : (rbcStep df acc1 col).getCol col =
      some (applyMask (colV.map (fun x => cellLt x (rbc_threshold col))) colV) := by
    rw [getCol_rbcStep_self df acc1 col hg, hacc1V, hmask]; rfl
  have hfin : (qc_rbc df).getCol col =
      some (applyMask (colV.map (fun x => cellLt x (rbc_threshold col))) colV) := by
    rw [hQ, getCol_foldl_rbc_ne df l2 _ col hu2, hstep]
  have hmgetD : ((colV.map (fun x => cellLt x (rbc_threshold col))).getD i false) =
      cellLt v (rbc_threshold col) :=
    applyMask_map_getD _ colV i hgetV
  rw [getCell_of_getCol hfin i, applyMask_get?]
  simp only [hmgetD, hgetV, Option.map_some']

/-- Witness for C5: a `reticulocytes` value of exactly `1e-4` survives the
RBC rule while `9.9e-5` becomes missing. -/
theorem qc_rbc_cells_witness :
    (qc_rbc rbcWitnessDf).getCell "reticulocytes" 0 = some (Cell.num rat1em4) ∧
    (qc_rbc rbcWitnessDf).getCell "reticulocytes" 1 = some Cell.na := by
  obtain ⟨hmain, -, -, -⟩ := qc_rbc_cells
  constructor
  · have h := hmain rbcWitnessDf "reticulocytes" 0 (Cell.num rat1em4)
      (by decide) (by decide)
    rw [h]; decide
  · have h := hmain rbcWitnessDf "reticulocytes" 1 (Cell.num rat99em6)
      (by decide) (by decide)
    rw [h]; decide

/-! ### Lemmas about the plausible-range pass -/

theorem plausStep_columnNames (entries : List (Cell × Option ℚ × Option ℚ))
    (acc : DataFrame) (c : String) :
    (plausStep entries acc c).columnNames = acc.columnNames := by
  unfold plausStep
  cases hr : rangeFor entries c with
  | none => rfl
  | some p =>
    obtain ⟨mn, mx⟩ := p
    cases mn <;> cases mx <;>
      simp only [columnNames_setColWhere]

theorem foldl_plaus_columnNames (entries : List (Cell × Option ℚ × Option ℚ)) :
    ∀ (L : List String) (acc : DataFrame),
      (L.foldl (plausStep entries) acc).columnNames = acc.columnNames := by
  intro L
  induction L with
  | nil => intro acc; rfl
  | cons c cs ih =>
    intro acc
    rw [List.foldl_cons, ih, plausStep_columnNames]

theorem getCol_plausStep_ne (entries : List (Cell × Option ℚ × Option ℚ))
    (acc : DataFrame) (c n : String) (h : n ≠ c) :
    (plausStep entries acc c).getCol n = acc.getCol n := by
  unfold plausStep
  cases hr : rangeFor entries c with
  | none => rfl
  | some p =>
    obtain ⟨mn, mx⟩ := p
    cases mn <;> cases mx <;>
      simp only [getCol_setColWhere_ne _ _ _ _ h]

theorem getCol_foldl_plaus_ne (entries : List (Cell × Option ℚ × Option ℚ)) :
    ∀ (L : List String) (acc : DataFrame) (n : String), (∀ c ∈ L, n ≠ c) →
      (L.foldl (plausStep entries) acc).getCol n = acc.getCol n := by
  intro L
  induction L with
  | nil => intro acc n _; rfl
  | cons c cs ih =>
    intro acc n h
    rw [List.foldl_cons, ih _ n (fun x hx => h x (by simp [hx])),
        getCol_plausStep_ne entries acc c n (h c (by simp))]

theorem getCol_nullBy (d : DataFrame) (col : String) (f : Cell → Bool) {colV : Col}
    (hcol : d.getCol col = some colV) :
    (d.setColWhere col (maskBy d col f)).getCol col = some (applyMask (colV.map f) colV) := by
  rw [getCol_setColWhere_self]
  unfold maskBy
  rw [hcol]
  rfl

theorem get?_applyMask_self (f : Cell → Bool) (colV : Col) (i : ℕ) {v : Cell}
    (hget : colV.get? i = some v) :
    (applyMask (colV.map f) colV).get? i = some (if f v then Cell.na else v) := by
  rw [applyMask_get?]
  simp only [applyMask_map_getD f colV i hget, hget, Option.map_some']

/-- The column produced by one plausible-range step on its own column. -/
theorem getCol_plausStep_self (entries : List (Cell × Option ℚ × Option ℚ))
    (acc : DataFrame) (col : String) {colV : Col} {mn mx : Option ℚ}
    (hcolV : acc.getCol col = some colV)
    (hr : rangeFor entries col = some (mn, mx)) :
    ∃ colF, (plausStep entries acc col).getCol col = some colF ∧
      ∀ i v, colV.get? i = some v → colF.get? i = some (plausCell mn mx v) := by
  unfold plausStep
  rw [hr]
  cases mn with
  | none =>
    cases mx with
    | none =>
      exact ⟨colV, hcolV, fun i v hv => by rw [hv]; rfl⟩
    | some M =>
      refine ⟨applyMask (colV.map (fun x => cellGt x M)) colV, ?_, ?_⟩
      · exact getCol_nullBy acc col _ hcolV
      · intro i v hv
        rw [get?_applyMask_self _ colV i hv]
        rfl
  | some m =>
    have hd1 : ((acc.setColWhere col (maskBy acc col (fun c => cellLt c m))).getCol col) =
        some (applyMask (colV.map (fun x => cellLt x m)) colV) :=
      getCol_nullBy acc col _ hcolV
    cases mx with
    | none =>
      refine ⟨applyMask (colV.map (fun x => cellLt x m)) colV, hd1, ?_⟩
      · intro i v hv
        rw [get?_applyMask_self _ colV i hv]
        rfl
    | some M =>
      refine ⟨applyMask ((applyMask (colV.map (fun x => cellLt x m)) colV).map
          (fun x => cellGt x M)) (applyMask (colV.map (fun x => cellLt x m)) colV), ?_, ?_⟩
      · exact getCol_nullBy _ col _ hd1
      · intro i v hv
        have h1 : (applyMask (colV.map (fun x => cellLt x m)) colV).get? i =
            some (if cellLt v m then Cell.na else v) := get?_applyMask_self _ colV i hv
        rw [get?_applyMask_self _ _ i h1]
        rfl

/-- Claim C3: for every dataset (with its unique column names) and every
data dictionary accepted by the rule, the plausible-range rule maps each
cell of a dictionary-listed column to exactly `plausCell mn mx` of it: a
Min bound nulls cells strictly below it, a Max bound nulls cells strictly
above it, an absent bound (the dash placeholder) nulls nothing on that
side, and every other cell is unchanged. -/
theorem qc_plausible_range_cells (df dict out : DataFrame)
    (entries : List (Cell × Option ℚ × Option ℚ)) (col : String) (i : ℕ) (v : Cell)
    (mn mx : Option ℚ)
    (hnd : df.columnNames.Nodup)
    (hok : qc_plausible_range df dict = Except.ok out)
    (hentries : dictRanges dict = Except.ok entries)
    (hrange : rangeFor entries col = some (mn, mx))
    (hcell : df.getCell col i = some v) :
    out.getCell col i = some (plausCell mn mx v) := by
  unfold qc_plausible_range at hok
  split_ifs at hok
  rw [hentries] at hok
  simp only [Except.ok.injEq] at hok
  obtain rfl := hok.symm
  obtain ⟨colV, hcolV, hgetV⟩ := getCell_getCol_some hcell
  have hmem : col ∈ df.columnNames := getCol_mem_columnNames df col hcolV
  obtain ⟨l1, l2, hL, hnl1, hnl2⟩ := nodup_split hnd hmem
  have hu1 : ∀ c ∈ l1, col ≠ c := by
    intro c hc
    rintro rfl
    exact hnl1 hc
  have hu2 : ∀ c ∈ l2, col ≠ c := by
    intro c hc
    rintro rfl
    exact hnl2 hc
  rw [hL, List.foldl_append, List.foldl_cons]
  have hacc1V : (l1.foldl (plausStep entries) df).getCol col = some colV := by
    rw [getCol_foldl_plaus_ne entries l1 df col hu1, hcolV]
  obtain ⟨colF, hcolF, hcellF⟩ :=
    getCol_plausStep_self entries (l1.foldl (plausStep entries) df) col hacc1V hrange
  have hfin : (l2.foldl (plausStep entries)
      (plausStep entries (l1.foldl (plausStep entries) df) col)).getCol col = some colF := by
    rw [getCol_foldl_plaus_ne entries l2 _ col hu2, hcolF]
  rw [getCell_of_getCol hfin i]
  exact hcellF i v hgetV

/-- Witness for C3: the spec's example. With dictionary entry
`{min 0, max 100}` for `glucose`, the cells `-1` and `150` become missing
and `50` is unchanged; the `ph` column, whose Min is the dash placeholder
and whose Max is empty, keeps its `-5` cell untouched. -/
theorem qc_plausible_range_cells_witness :
    glucoseOut.getCell "glucose" 0 = some Cell.na ∧
    glucoseOut.getCell "glucose" 1 = some Cell.na ∧
    glucoseOut.getCell "glucose" 2 = some (Cell.num 50) ∧
    glucoseOut.getCell "ph" 0 = some (Cell.num (-5)) := by
  have h0 := qc_plausible_range_cells glucoseDf glucoseDict glucoseOut glucoseEntries
    "glucose" 0 (Cell.num (-1)) (some 0) (some 100)
    (by decide) (by decide) (by decide) (by decide) (by decide)
  have h1 := qc_plausible_range_cells glucoseDf glucoseDict glucoseOut glucoseEntries
    "glucose" 1 (Cell.num 150) (some 0) (some 100)
    (by decide) (by decide) (by decide) (by decide) (by decide)
  have h2 := qc_plausible_range_cells glucoseDf glucoseDict glucoseOut glucoseEntries
    "glucose" 2 (Cell.num 50) (some 0) (some 100)
    (by decide) (by decide) (by decide) (by decide) (by decide)
  have h3 := qc_plausible_range_cells glucoseDf glucoseDict glucoseOut glucoseEntries
    "ph" 0 (Cell.num (-5)) none none
    (by decide) (by decide) (by decide) (by decide) (by decide)
  refine ⟨?_, ?_, ?_, ?_⟩
  · rw [h0]; decide
  · rw [h1]; decide
  · rw [h2]; decide
  · rw [h3]; decide

/-! ### Lemmas for C10 -/

theorem plausStep_none (entries : List (Cell × Option ℚ × Option ℚ))
    (acc : DataFrame) (c : String) (hr : rangeFor entries c = none) :
    plausStep entries acc c = acc := by
  unfold plausStep
  rw [hr]

theorem clean_missing_errors (df : DataFrame) (dict : List (String × String)) :
    ∀ (cols : List String) (acc : DataFrame) (col : String),
      col ∈ cols → col.toList ≠ [] → col.toList.head? ≠ some '_' →
      dict.find? (fun e => decide (e.1 = col)) = none →
      ∃ e, cols.foldlM (cleanStep df dict) acc = Except.error e := by
  intro cols
  induction cols with
  | nil => intro acc col hmem; simp at hmem
  | cons c cs ih =>
    intro acc col hmem hne hpre hfind
    cases hstep : cleanStep df dict acc c with
    | error e =>
      exact ⟨e, by rw [List.foldlM_cons, hstep]; rfl⟩
    | ok acc' =>
      rcases List.mem_cons.1 hmem with hcc | hmem'
      · exfalso
        rw [hcc] at hfind hne hpre
        unfold cleanStep at hstep
        cases hcl : c.toList with
        | nil => exact hne hcl
        | cons ch rest =>
          have hch : ch ≠ '_' := by
            intro hh
            apply hpre
            rw [hcl, hh]
            rfl
          simp only [cleanStep, hcl, if_neg hch, hfind] at hstep
          exact Except.noConfusion hstep
      · obtain ⟨e, he⟩ := ih acc' col hmem' hne hpre hfind
        refine ⟨e, ?_⟩
        rw [List.foldlM_cons, hstep]
        exact he

/-- Counterexample to C10 as stated: the type-coercion dispatch of
`clean_dataframe` does raise on a column with no dictionary entry — pandas
`.loc` lookup fails with `KeyError`, so the call errors instead of leaving
the column unchanged. -/
theorem clean_dataframe_missing_raises :
    clean_dataframe mysteryDf [] = Except.error (QcError.keyError "mystery") := by
  decide

/-- Claim C10 (corrected): a dataset column with no dictionary entry is left
unchanged, without error, by the plausible-range rule; but the type-coercion
dispatch of `clean_dataframe` raises a `KeyError` when it reaches such a
column (non-empty name, not starting with the underscore ignore marker), so
the call fails rather than passing the column through. -/
theorem dictionary_exempt_columns :
    (∀ (df dict out : DataFrame) (entries : List (Cell × Option ℚ × Option ℚ)) (col : String),
      df.columnNames.Nodup →
      qc_plausible_range df dict = Except.ok out →
      dictRanges dict = Except.ok entries →
      rangeFor entries col = none →
      col ∈ df.columnNames →
      out.getCol col = df.getCol col) ∧
    (∀ (df : DataFrame) (dict : List (String × String)) (col : String),
      col ∈ df.columnNames → col.toList ≠ [] → col.toList.head? ≠ some '_' →
      dict.find? (fun e => decide (e.1 = col)) = none →
      ∃ e, clean_dataframe df dict = Except.error e) := by
  constructor
  · intro df dict out entries col hnd hok hentries hnone hmem
    unfold qc_plausible_range at hok
    split_ifs at hok
    rw [hentries] at hok
    simp only [Except.ok.injEq] at hok
    obtain rfl := hok.symm
    obtain ⟨l1, l2, hL, hnl1, hnl2⟩ := nodup_split hnd hmem
    have hu1 : ∀ c ∈ l1, col ≠ c := by
      intro c hc
      rintro rfl
      exact hnl1 hc
    have hu2 : ∀ c ∈ l2, col ≠ c := by
      intro c hc
      rintro rfl
      exact hnl2 hc
    rw [hL, List.foldl_append, List.foldl_cons, plausStep_none entries _ col hnone,
        getCol_foldl_plaus_ne entries l2 _ col hu2,
        getCol_foldl_plaus_ne entries l1 df col hu1]
  · intro df dict col hmem hne hpre hfind
    exact clean_missing_errors df dict df.columnNames df col hmem hne hpre hfind

/-- Witness for the corrected C10: with the glucose dictionary, the
plausible-range rule passes the unlisted `mystery2` column through
unchanged, while `clean_dataframe` on a dataset whose only column is
missing from the dictionary fails. -/
theorem dictionary_exempt_columns_witness :
    c10Out.getCol "mystery2" = c10Df.getCol "mystery2" ∧
    (∃ e, clean_dataframe mysteryDf [] = Except.error e) := by
  constructor
  · exact dictionary_exempt_columns.1 c10Df glucoseDict c10Out glucoseEntries "mystery2"
      (by decide) (by decide) (by decide) (by decide) (by decide)
  · exact dictionary_exempt_columns.2 mysteryDf [] "mystery"
      (by decide) (by decide) (by decide) (by decide)

/-- Claim C1 (code bug): the docstring of `perform_qc` documents the synonym
names, and its match implements them, but the `qc_types_possible` membership
gate runs first and only admits
`wbc_scatter, rbc_scatter, plausible_range, flags, fail, standard_values`.
So `wbc_scatter` does apply the WBC-scatter rule and `flags`/`fail` are
no-ops as claimed, but `rbc`, `erythro`, `leuko_scatter`,
`suspicious_flags` and `failure` are all skipped with a diagnostic: the
dataset comes back unchanged even where the corresponding rule would have
nulled cells, as the concrete frames show. -/
theorem perform_qc_synonym_dispatch :
    (∀ df, perform_qc df ["wbc_scatter"] = Except.ok (qc_wbc_scatter df rat1em14)) ∧
    (∀ df, perform_qc df ["flags"] = Except.ok df) ∧
    (∀ df, perform_qc df ["fail"] = Except.ok df) ∧
    (∀ df, perform_qc df ["rbc"] = Except.ok df) ∧
    (∀ df, perform_qc df ["erythro"] = Except.ok df) ∧
    (∀ df, perform_qc df ["leuko_scatter"] = Except.ok df) ∧
    (∀ df, perform_qc df ["suspicious_flags"] = Except.ok df) ∧
    (∀ df, perform_qc df ["failure"] = Except.ok df) ∧
    qc_rbc rbcSkipDf ≠ rbcSkipDf ∧
    perform_qc rbcSkipDf ["rbc"] = Except.ok rbcSkipDf ∧
    qc_wbc_scatter leukoSkipDf rat1em14 ≠ leukoSkipDf ∧
    perform_qc leukoSkipDf ["leuko_scatter"] = Except.ok leukoSkipDf := by
  refine ⟨fun df => rfl, fun df => rfl, fun df => rfl, fun df => rfl, fun df => rfl,
    fun df => rfl, fun df => rfl, fun df => rfl, by decide, by decide, by decide, by decide⟩

/-- Witness for C1: concrete runs of the orchestrator — `rbc` is skipped
and the dataset with a zero `reticulocytes` cell comes back unchanged. -/
theorem perform_qc_synonym_dispatch_witness :
    perform_qc rbcSkipDf ["rbc"] = Except.ok rbcSkipDf ∧
    perform_qc leukoSkipDf ["leuko_scatter"] = Except.ok leukoSkipDf :=
  ⟨perform_qc_synonym_dispatch.2.2.2.2.2.2.2.2.2.1,
   perform_qc_synonym_dispatch.2.2.2.2.2.2.2.2.2.2.2⟩

/-- Claim C2 (code bug): `perform_qc` invokes `qc_plausible_range(df_qc)`
without the required positional `df_data_dictionary`, so any rule list
reaching the `plausible_range` branch — including the default list — makes
the call fail with a `TypeError` instead of returning a QC'd dataset. -/
theorem perform_qc_plausible_range_crashes :
    (∀ df, perform_qc df ["plausible_range"] =
      Except.error (QcError.typeError
        "qc_plausible_range() missing 1 required positional argument: \x27df_data_dictionary\x27")) ∧
    (∀ df, perform_qc df default_qc_types =
      Except.error (QcError.typeError
        "qc_plausible_range() missing 1 required positional argument: \x27df_data_dictionary\x27")) :=
  ⟨fun _ => rfl, fun _ => rfl⟩

/-- Claim C6 (code bug): `qc_standard_values` iterates
`for col, value in cols_standard_values:` over the dict itself, so the
first iteration tuple-unpacks the first KEY (a 28-character string) and
raises `ValueError` for every input dataset; no row filtering ever runs. -/
theorem qc_standard_values_crashes (df : DataFrame) :
    qc_standard_values df =
      Except.error (QcError.valueError "too many values to unpack (expected 2)") := rfl

/-- Claim C7: invoking the orchestrator with an empty rule list fails
immediately on the `qc_types == []` check — the code executes
`raise("qc_types is empty.")` before dispatching any rule, so no QC rule is
applied and an exception propagates (the spec's `EmptyRuleListError`; in
CPython the raised object being a plain string surfaces as a `TypeError`,
recorded by the `raiseNonException` constructor). -/
theorem perform_qc_empty_fails (df : DataFrame) :
    perform_qc df [] = Except.error (QcError.raiseNonException "qc_types is empty.") := rfl

/-- Claim C8: a non-empty rule list containing only unrecognized names does
not raise; after a diagnostic the dataset is returned equal to the input. -/
theorem perform_qc_unknown_rule (df : DataFrame) :
    perform_qc df ["not_a_real_rule"] = Except.ok df := rfl
